import Mathlib

/-!
# Verification of the pystac-client search-and-pagination engine

A shallow embedding of the search-and-pagination engine of the
`stac-utils/pystac-client` repository.  The Python implementation modules
are not shipped in this source snapshot (only the documentation,
changelog and tutorials are), so the components below are modelled from
the specification's component design (conformance registry, filter
translator, sort normalizer, retrying transport, pagination engine),
with the documented behaviours from `docs/usage.rst` and `CHANGELOG.md`.
-/

set_option autoImplicit false

namespace PystacClient

/-! ## Data model -/

/-- HTTP method of a request or continuation link. -/
inductive Method where
  | GET
  | POST
  deriving DecidableEq, Repr

/-- Modelled from the spec: a ContinuationLink `{method, target, body}`
extracted from a response's declared "next" relation.  The target type is
a parameter so synthetic servers can use `Nat` page identifiers. -/
structure ContinuationLink (α : Type) where
  method : Method
  target : α
  body : Option String
  deriving DecidableEq, Repr

/-- Modelled from the spec: a Page is one server response interpreted as a
sequence of item records plus an optional result-count estimate
(`matched`) and an optional ContinuationLink.  Item records are opaque;
we model them as natural-number identifiers. -/
structure Page (α : Type) where
  items : List Nat
  matched : Option Nat
  next : Option (ContinuationLink α)
  deriving DecidableEq, Repr

/-- Truncate a page's item sequence to the remaining budget
(`none` = unbounded). -/
def pageTake (budget : Option Nat) (items : List Nat) : List Nat :=
  match budget with
  | none => items
  | some b => items.take b

/-- Budget remaining after yielding `n` items. -/
def budgetAfter (budget : Option Nat) (n : Nat) : Option Nat :=
  match budget with
  | none => none
  | some b => some (b - n)

/-- Modelled from the spec: the PaginationEngine state machine of §4.6,
whose Python implementation (`ItemSearch.items_as_dicts` /
`StacApiIO.get_pages`) is missing from this snapshot.  `server` maps a
request target to the page the server returns for it; the result is the
list of yielded items together with the trace of requested targets.
Stop conditions, in the order the spec gives them: an empty page
(documented fix "Stop iteration on an empty page", CHANGELOG v0.6.0);
the result cap `max_items` reached, in which case the final page is
truncated to the remaining budget; no continuation link; a continuation
link that resolves to the same target as the current page (cycle guard,
a benign termination).  `fuel` bounds the recursion; every claim is
stated with enough fuel for the chain it visits. -/
def runEngine {α : Type} [DecidableEq α] (server : α → Page α) :
    Nat → α → Option Nat → List Nat × List α
  | 0, _, _ => ([], [])
  | fuel + 1, target, budget =>
    if (server target).items.isEmpty then
      ([], [target])
    else if budgetAfter budget (pageTake budget (server target).items).length = some 0 then
      (pageTake budget (server target).items, [target])
    else
      match (server target).next with
      | none => (pageTake budget (server target).items, [target])
      | some link =>
        if link.target = target then
          (pageTake budget (server target).items, [target])
        else
          (pageTake budget (server target).items ++
             (runEngine server fuel link.target
               (budgetAfter budget (pageTake budget (server target).items).length)).1,
           target ::
             (runEngine server fuel link.target
               (budgetAfter budget (pageTake budget (server target).items).length)).2)

/-- A synthetic linear server: page `i` holds the `i`-th item block of
`pages` and always advertises a "next" link to page `i + 1`; pages past
the end of the list are empty.  Request targets are page indices. -/
def chainServer (pages : List (List Nat)) (i : Nat) : Page Nat :=
  { items := (pages[i]?).getD []
    matched := none
    next := some { method := .GET, target := i + 1, body := none } }

/-- Number of pages the engine must fetch from a linear server before a
result cap of `n` items is reached. -/
def pagesNeeded : List (List Nat) → Nat → Nat
  | _, 0 => 0
  | [], _ + 1 => 0
  | p :: ps, n + 1 =>
    if n + 1 ≤ p.length then 1 else 1 + pagesNeeded ps (n + 1 - p.length)

/-- The synthetic server of the spec's pagination-termination test:
three pages of ten items each (and no `matched` field, see
`chainServer`). -/
def threePagesOfTen : List (List Nat) :=
  [List.range' 0 10, List.range' 10 10, List.range' 20 10]

/-! ## Filter translator -/

/-- A literal sent in a comparison: either a string, or a numeric value
for the properties on the documented numeric allowlist. -/
inductive Lit where
  | str (s : String)
  | num (q : Rat)
  deriving DecidableEq, Repr

/-- Modelled from the spec: a comparison node of the boolean filter
tree, `{op, property, value}`. -/
structure Comparison where
  op : String
  property : String
  value : Lit
  deriving DecidableEq, Repr

/-- Modelled from the spec: errors raised at search-construction time by
the filter translator.  `invalidFilterShorthand` embeds the spec's
`InvalidFilterSyntax` condition; it carries the offending token. -/
inductive TranslateError where
  | invalidFilterShorthand (token : String)
  | invalidNumericLiteral (token : String)
  deriving DecidableEq, Repr

/-- Split a shorthand filter string at the first occurrence of a
recognized operator token, one of `>=`, `<=`, `>`, `<`, `=`.  Returns
the characters left of the operator, the operator token and the
characters right of it, or `none` when no operator occurs. -/
def splitFirstOp : List Char → Option (List Char × String × List Char)
  | [] => none
  | c :: rest =>
    if c = '<' ∨ c = '>' then
      if rest.head? = some '=' then some ([], String.mk [c, '='], rest.tail)
      else some ([], String.mk [c], rest)
    else if c = '=' then
      some ([], "=", rest)
    else
      match splitFirstOp rest with
      | some (l, op, r) => some (c :: l, op, r)
      | none => none

/-- Parse a run of decimal digits, accumulating into `acc`. -/
def parseDigitsAux : List Char → Nat → Option Nat
  | [], acc => some acc
  | c :: rest, acc =>
    if c.isDigit then parseDigitsAux rest (acc * 10 + (c.toNat - 48))
    else none

/-- Parse an unsigned decimal literal (digits with an optional single
point) into an exact rational, modelling the numeric cast applied to
allowlisted properties. -/
def parseDecimal (cs : List Char) : Option Rat :=
  if cs.isEmpty then none
  else
    match cs.span (fun c => c ≠ '.') with
    | (intPart, []) => (parseDigitsAux intPart 0).map (fun n => (n : Rat))
    | (intPart, _ :: fracPart) =>
      if fracPart.isEmpty then none
      else
        match parseDigitsAux intPart 0, parseDigitsAux fracPart 0 with
        | some n, some f => some ((n : Rat) + (f : Rat) / ((10 : Rat) ^ fracPart.length))
        | _, _ => none

/-- The documented allowlist of properties whose shorthand literals are
cast to a numeric value (`docs/usage.rst`: "it sends all property values
to the server as strings, except for gsd which it casts to float"). -/
def numericProperties : List String := ["gsd"]

/-- Modelled from the spec: the FilterTranslator on one shorthand string
`property operator literal`: split on the first recognized operator
token; the left side is the property name, the right side the literal;
the literal is cast to a numeric value only for properties on
`numericProperties` and otherwise kept as a string. -/
def translateShorthand (s : String) : Except TranslateError Comparison :=
  match splitFirstOp s.toList with
  | none => .error (.invalidFilterShorthand s)
  | some (left, op, right) =>
    if numericProperties.contains (String.mk left) then
      match parseDecimal right with
      | some q => .ok { op := op, property := String.mk left, value := .num q }
      | none => .error (.invalidNumericLiteral (String.mk right))
    else
      .ok { op := op, property := String.mk left, value := .str (String.mk right) }

/-- Map a list through a fallible function, stopping at the first
error. -/
def exceptMapList {ε α β : Type} (f : α → Except ε β) : List α → Except ε (List β)
  | [] => .ok []
  | a :: rest =>
    match f a with
    | .error e => .error e
    | .ok b =>
      match exceptMapList f rest with
      | .error e => .error e
      | .ok bs => .ok (b :: bs)

/-- Translate all shorthand entries of a search's `query` argument; the
entries combine conjunctively. -/
def buildQueryFilter (qs : List String) : Except TranslateError (List Comparison) :=
  exceptMapList translateShorthand qs

/-- The five recognized comparison operators of the shorthand syntax. -/
inductive CompOp where
  | ge
  | le
  | gt
  | lt
  | eq
  deriving DecidableEq, Repr

/-- The operator token of a recognized comparison operator. -/
def CompOp.token : CompOp → String
  | .ge => ">="
  | .le => "<="
  | .gt => ">"
  | .lt => "<"
  | .eq => "="

/-! ## Sort-specification normalizer -/

/-- Sort direction. -/
inductive Direction where
  | asc
  | desc
  deriving DecidableEq, Repr

/-- Modelled from the spec: the canonical SortField
`{field, direction}`. -/
structure SortField where
  field : String
  direction : Direction
  deriving DecidableEq, Repr

/-- An explicit sort record as accepted at the boundary, with the
direction still a raw token. -/
structure SortRecord where
  field : String
  direction : String
  deriving DecidableEq, Repr

/-- Modelled from the spec: errors of the SortSpecNormalizer.
`invalidSortSpec` embeds the spec's `InvalidSortSyntax` condition. -/
inductive SortError where
  | invalidSortSpec (token : String)
  deriving DecidableEq, Repr

/-- Modelled from the spec: the three accepted sort-specification
shapes: one comma-separated string of optionally `+`/`-`-prefixed
fields, a list of such prefixed fields, or a list of explicit
records. -/
inductive SortInput where
  | ofString (s : String)
  | ofList (l : List String)
  | ofRecords (l : List SortRecord)

/-- Split a character sequence at commas. -/
def splitComma : List Char → List (List Char)
  | [] => [[]]
  | c :: rest =>
    if c = ',' then [] :: splitComma rest
    else
      match splitComma rest with
      | [] => [[c]]
      | t :: ts => (c :: t) :: ts

/-- Join strings with comma separators (the shape of the single-string
sort specification). -/
def joinComma : List String → String
  | [] => ""
  | [s] => s
  | s :: rest => s ++ "," ++ joinComma rest

/-- Normalize one prefixed sort field token: a `-` prefix means
descending, a `+` prefix or no prefix means ascending; an empty field
name is rejected. -/
def normalizeSortToken (cs : List Char) : Except SortError SortField :=
  if cs.isEmpty then .error (.invalidSortSpec "")
  else if cs.head? = some '-' then
    if cs.tail.isEmpty then .error (.invalidSortSpec (String.mk cs))
    else .ok { field := String.mk cs.tail, direction := .desc }
  else if cs.head? = some '+' then
    if cs.tail.isEmpty then .error (.invalidSortSpec (String.mk cs))
    else .ok { field := String.mk cs.tail, direction := .asc }
  else .ok { field := String.mk cs, direction := .asc }

/-- Decode a recognized direction token. -/
def decodeDirection (d : String) : Direction :=
  if d = "desc" then Direction.desc else Direction.asc

/-- Normalize one explicit sort record: the direction token must be
`asc` or `desc` and the field name nonempty. -/
def normalizeRecord (r : SortRecord) : Except SortError SortField :=
  if r.field = "" then .error (.invalidSortSpec r.field)
  else if r.direction = "asc" then .ok { field := r.field, direction := .asc }
  else if r.direction = "desc" then .ok { field := r.field, direction := .desc }
  else .error (.invalidSortSpec r.direction)

/-- Modelled from the spec: the SortSpecNormalizer, converting any of
the three accepted shapes into the one canonical ordered SortField
sequence, preserving field order. -/
def normalizeSort : SortInput → Except SortError (List SortField)
  | .ofString s => exceptMapList normalizeSortToken (splitComma s.toList)
  | .ofList l => exceptMapList (fun s => normalizeSortToken s.toList) l
  | .ofRecords l => exceptMapList normalizeRecord l

/-- Render an explicit sort record as the equivalent prefixed field
token. -/
def renderRecord (r : SortRecord) : String :=
  if r.direction = "desc" then "-" ++ r.field else "+" ++ r.field

/-! ## Filter language and request parameters -/

/-- A recursive boolean filter-expression tree, as produced by the
primary structured filter grammar (CQL2 JSON). -/
inductive FilterExpr where
  | comparison (op : String) (property : String) (value : Lit)
  | logical (op : String) (children : List FilterExpr)

/-- Modelled from the spec: a filter argument is either an
already-structured expression tree (a dict at the Python boundary) or
raw text in the secondary textual grammar, passed through unmodified. -/
inductive FilterInput where
  | structured (e : FilterExpr)
  | text (s : String)

/-- Modelled from the CHANGELOG (v0.4.0): with no explicit
`filter_lang` argument the language tag is chosen from the filter's
shape: `cql2-json` for a structured dict, `cql2-text` for a raw
string. -/
def resolveFilterLang : Option String → FilterInput → String
  | some lang, _ => lang
  | none, .structured _ => "cql2-json"
  | none, .text _ => "cql2-text"

/-- The overall default filter language (CHANGELOG v0.4.0:
"filter-lang defaults to cql2-json"). -/
def defaultFilterLang : String := "cql2-json"

/-- A request parameter value: raw text or a structured JSON payload. -/
inductive ParamValue where
  | str (s : String)
  | json (e : FilterExpr)

/-- The payload sent for a filter argument: the structured tree for the
primary grammar, the raw string for the textual grammar. -/
def filterPayload : FilterInput → ParamValue
  | .structured e => .json e
  | .text s => .str s

/-- Modelled from the spec: the filter-related request parameters; a
language identifier tag accompanies any filter payload. -/
def filterParams (lang : Option String) : Option FilterInput → List (String × ParamValue)
  | none => []
  | some f => [("filter-lang", .str (resolveFilterLang lang f)), ("filter", filterPayload f)]

/-! ## Search specification and capability gating -/

/-- Modelled from the spec: the logical SearchSpec.  `maxItems` is the
result cap (`max_items`); it defaults to unbounded (`none`): CHANGELOG
v0.4.0 briefly changed the default to 100, but v0.5.0 "Restored the
previous behavior of Client.search() to return an unlimited number of
items by default", which stands at head.  `limit` is the page size; it
is likewise no longer sent by default (CHANGELOG: "Don't provide a
limit by default, trust the server to know its limits"). -/
structure SearchSpec where
  maxItems : Option Nat := none
  limit : Option Nat := none
  query : List String := []
  filter : Option FilterInput := none
  filterLang : Option String := none
  sortby : Option SortInput := none

/-- The SearchSpec built with no explicit arguments. -/
def defaultSearchSpec : SearchSpec := {}

/-- Conformance URI of the item-search filter capability. -/
def CONFORMANCE_FILTER : String := "https://api.stacspec.org/v1.0.0/item-search#filter"

/-- Conformance URI of the item-search query capability. -/
def CONFORMANCE_QUERY : String := "https://api.stacspec.org/v1.0.0/item-search#query"

/-- Conformance URI of the item-search sort capability. -/
def CONFORMANCE_SORT : String := "https://api.stacspec.org/v1.0.0/item-search#sort"

/-- Modelled from the spec: the ConformanceRegistry.  `advertised` is
the capability list from the server's landing document (`none` when the
server advertises nothing at all, a distinct "unknown" state);
`overrides` holds capabilities added explicitly by the caller, which
change only the client's belief.  The spec's tolerant pattern matching
across historical URI revisions is abstracted to literal membership; no
claim depends on the pattern details. -/
structure ConformanceSet where
  advertised : Option (List String) := none
  overrides : List String := []
  deriving DecidableEq, Repr

/-- Capability-membership query over advertised and overridden
capabilities. -/
def ConformanceSet.implements (cs : ConformanceSet) (cap : String) : Bool :=
  (cs.advertised.getD []).contains cap || cs.overrides.contains cap

/-- Warning-level signals, observable on a side channel and never
fatal. -/
inductive WarningSignal where
  | unsupportedCapability (cap : String)
  | noConformsTo
  deriving DecidableEq, Repr

/-- The capabilities a search specification relies on. -/
def capabilityChecks (sp : SearchSpec) : List String :=
  (if sp.filter.isSome then [CONFORMANCE_FILTER] else [])
    ++ (if sp.query.isEmpty then [] else [CONFORMANCE_QUERY])
    ++ (if sp.sortby.isSome then [CONFORMANCE_SORT] else [])

/-- Modelled from the spec: capability gating of one search.  Each
capability the specification relies on but the registry does not
implement produces one `unsupportedCapability` warning signal; the
request is still attempted (the documented "try anyway" policy). -/
def gateWarnings (cs : ConformanceSet) (sp : SearchSpec) : List WarningSignal :=
  (capabilityChecks sp).filterMap
    (fun cap => if cs.implements cap then none else some (.unsupportedCapability cap))

/-- One gated search: the warnings emitted for this search, the yielded
items and the trace of requests actually issued. -/
def searchWithGate (cs : ConformanceSet) (sp : SearchSpec) {α : Type} [DecidableEq α]
    (server : α → Page α) (fuel : Nat) (start : α) :
    List WarningSignal × (List Nat × List α) :=
  (gateWarnings cs sp, runEngine server fuel start sp.maxItems)

/-- Modelled from the spec: search construction followed by the lazy
engine run.  Translation errors are raised at construction time: an
erroneous result carries no request trace because the engine is never
driven. -/
def executeSearch (qs : List String) {α : Type} [DecidableEq α]
    (server : α → Page α) (fuel : Nat) (start : α) (maxItems : Option Nat) :
    Except TranslateError (List Nat × List α) :=
  match buildQueryFilter qs with
  | .error e => .error e
  | .ok _ => .ok (runEngine server fuel start maxItems)

/-! ## Retrying transport -/

/-- The outcome of one transport attempt as seen by the retry policy. -/
inductive AttemptResult where
  | success (body : Nat)
  | connectionError
  | timeout
  | status (code : Nat)
  | malformedBody
  deriving DecidableEq, Repr

/-- Modelled from the spec: the retry configuration; by default no
status code is retried (`docs/usage.rst`: by default only DNS failures
and timeouts are retried; a status forcelist such as `[502, 503, 504]`
must be configured explicitly). -/
structure RetryConfig where
  maxAttempts : Nat
  statusForcelist : List Nat := []
  deriving DecidableEq, Repr

/-- Modelled from the spec: whether a failed attempt may be retried:
connection/name-resolution failures and timeouts always, a server error
status code only when it is 5xx and explicitly configured; everything
else (4xx, malformed bodies) surfaces immediately. -/
def retryable (cfg : RetryConfig) : AttemptResult → Bool
  | .success _ => false
  | .connectionError => true
  | .timeout => true
  | .status code => (decide (500 ≤ code) && decide (code < 600)) && cfg.statusForcelist.contains code
  | .malformedBody => false

/-- The result of one logical request: the successful body or the final
failure, together with the number of attempts made. -/
inductive TransportOutcome where
  | ok (body : Nat) (attempts : Nat)
  | failed (reason : AttemptResult) (attempts : Nat)
  deriving DecidableEq, Repr

/-- Number of attempts recorded in a transport outcome. -/
def TransportOutcome.attempts : TransportOutcome → Nat
  | .ok _ n => n
  | .failed _ n => n

/-- Whether an attempt succeeded. -/
def isSuccess : AttemptResult → Bool
  | .success _ => true
  | .connectionError => false
  | .timeout => false
  | .status _ => false
  | .malformedBody => false

/-- The body of a successful attempt (0 otherwise; unused then). -/
def successBody : AttemptResult → Nat
  | .success b => b
  | .connectionError => 0
  | .timeout => 0
  | .status _ => 0
  | .malformedBody => 0

/-- Modelled from the spec: the bounded retry loop of the
RetryingTransport.  `script` gives the synthetic result of each attempt,
`made` counts attempts already made and the last argument is the number
of attempts still allowed. -/
def runAttempts (cfg : RetryConfig) (script : Nat → AttemptResult) (made : Nat) :
    Nat → TransportOutcome
  | 0 => .failed .connectionError made
  | remaining + 1 =>
    if isSuccess (script made) then .ok (successBody (script made)) (made + 1)
    else if retryable cfg (script made) && remaining != 0 then
      runAttempts cfg script (made + 1) remaining
    else .failed (script made) (made + 1)

/-- Execute one logical request under the bounded retry policy. -/
def runTransport (cfg : RetryConfig) (script : Nat → AttemptResult) : TransportOutcome :=
  runAttempts cfg script 0 cfg.maxAttempts

/-- The spec's retry-policy test transport: two timeouts, then
success. -/
def twoTimeoutsThenSuccess : Nat → AttemptResult :=
  fun i => if i < 2 then .timeout else .success 7

/-- A synthetic server whose "next" link always targets the same URL as
the current page. -/
def selfLoopServer : Nat → Page Nat :=
  fun _ =>
    { items := [1, 2, 3]
      matched := none
      next := some { method := .GET, target := 0, body := none } }

/-- A registry advertising only an unrelated capability, used to witness
the capability-gating claim. -/
def gateExampleCS : ConformanceSet :=
  { advertised := some ["https://api.stacspec.org/v1.0.0/core"], overrides := [] }

/-- A search specification carrying a filter expression, used to witness
the capability-gating claim. -/
def gateExampleSpec : SearchSpec :=
  { filter := some (.text "gsd <= 1") }

/-! ## Basic engine lemmas -/

/-- With a finite budget `b`, the engine never yields more than `b`
items, whatever the server does. -/
theorem runEngine_length_le {α : Type} [DecidableEq α] (server : α → Page α) :
    ∀ (fuel : Nat) (target : α) (b : Nat),
      ((runEngine server fuel target (some b)).1).length ≤ b := by
  intro fuel
  induction fuel with
  | zero => intro t b; simp [runEngine]
  | succ n ih =>
    intro t b
    rw [runEngine]
    split
    · simp
    · split
      · simp [pageTake]
      · split
        · simp [pageTake]
        · rename_i link heq
          split
          · simp [pageTake]
          · have h2 := ih link.target (b - ((server t).items.take b).length)
            simp only [budgetAfter, pageTake, List.length_append, List.length_take] at h2 ⊢
            omega

/-- The engine with positive fuel issues at least the request for the
starting target. -/
theorem runEngine_requests_ne_nil {α : Type} [DecidableEq α] (server : α → Page α)
    (fuel : Nat) (target : α) (budget : Option Nat) :
    (runEngine server (fuel + 1) target budget).2 ≠ [] := by
  rw [runEngine]
  split
  · simp
  · split
    · simp
    · split
      · simp
      · split
        · simp
        · simp

/-- Running the engine against a linear server from page `i` with a
finite budget `b` yields the first `b` items of the remaining pages and
requests exactly the pages needed to fill the budget. -/
theorem runEngine_chain (pages : List (List Nat)) (hne : ∀ p ∈ pages, p ≠ []) :
    ∀ (fuel i b : Nat), 0 < b →
      b ≤ ((pages.drop i).map List.length).sum →
      pages.length ≤ i + fuel →
      runEngine (chainServer pages) fuel i (some b)
        = (((pages.drop i).flatten).take b,
           List.range' i (pagesNeeded (pages.drop i) b)) := by
  intro fuel
  induction fuel with
  | zero =>
    intro i b hb hsum hlen
    exfalso
    have hd : pages.drop i = [] := List.drop_eq_nil_iff.mpr (by omega)
    rw [hd] at hsum
    simp at hsum
    omega
  | succ n ih =>
    intro i b hb hsum hlen
    have hi : i < pages.length := by
      by_contra h
      have hd : pages.drop i = [] := List.drop_eq_nil_iff.mpr (by omega)
      rw [hd] at hsum
      simp at hsum
      omega
    have hdrop : pages.drop i = pages[i] :: pages.drop (i + 1) :=
      List.drop_eq_getElem_cons hi
    have hpne : pages[i] ≠ [] := hne _ (List.getElem_mem hi)
    obtain ⟨m, rfl⟩ : ∃ m, b = m + 1 := by
      cases b with
      | zero => omega
      | succ m => exact ⟨m, rfl⟩
    rw [runEngine]
    simp only [chainServer, List.getElem?_eq_getElem hi, Option.getD_some]
    rw [if_neg (by simpa [List.isEmpty_iff] using hpne)]
    simp only [pageTake, budgetAfter, List.length_take]
    rcases le_or_lt (m + 1) pages[i].length with hble | hble
    · -- the budget is met inside page i: truncate and stop
      rw [Nat.min_eq_left hble, Nat.sub_self, if_pos rfl, hdrop]
      have hflat : ((pages[i] :: pages.drop (i + 1)).flatten).take (m + 1)
          = pages[i].take (m + 1) := by
        rw [List.flatten_cons, List.take_append_of_le_length hble]
      rw [hflat]
      have hpn : pagesNeeded (pages[i] :: pages.drop (i + 1)) (m + 1) = 1 := by
        simp [pagesNeeded, hble]
      rw [hpn, List.range'_one]
    · -- page i is exhausted with budget remaining: follow the next link
      have htake : pages[i].take (m + 1) = pages[i] :=
        List.take_of_length_le (by omega)
      rw [if_neg (by
        rw [Nat.min_eq_right (by omega)]
        simp
        omega)]
      rw [if_neg (by omega : ¬ (i + 1 = i))]
      rw [Nat.min_eq_right (by omega)]
      have hsum' : m + 1 - pages[i].length
          ≤ ((pages.drop (i + 1)).map List.length).sum := by
        rw [hdrop] at hsum
        simp only [List.map_cons, List.sum_cons] at hsum
        omega
      rw [ih (i + 1) (m + 1 - pages[i].length) (by omega) hsum' (by omega)]
      rw [hdrop, List.flatten_cons]
      rw [List.take_append_eq_append_take, htake]
      have hpn : pagesNeeded (pages[i] :: pages.drop (i + 1)) (m + 1)
          = 1 + pagesNeeded (pages.drop (i + 1)) (m + 1 - pages[i].length) := by
        simp [pagesNeeded, Nat.not_le.mpr hble]
      rw [hpn, Nat.add_comm 1, List.range'_succ]

/-- Running the engine with an unbounded budget against a linear server
from page `i` yields every remaining item and requests every remaining
page plus the final empty page that ends the chain. -/
theorem runEngine_chain_unbounded (pages : List (List Nat))
    (hne : ∀ p ∈ pages, p ≠ []) :
    ∀ (fuel i : Nat), i ≤ pages.length → pages.length + 1 ≤ i + fuel →
      runEngine (chainServer pages) fuel i none
        = ((pages.drop i).flatten, List.range' i (pages.length + 1 - i)) := by
  intro fuel
  induction fuel with
  | zero =>
    intro i hi hfuel
    omega
  | succ n ih =>
    intro i hi hfuel
    rcases Nat.lt_or_ge i pages.length with hlt | hge
    · have hdrop : pages.drop i = pages[i] :: pages.drop (i + 1) :=
        List.drop_eq_getElem_cons hlt
      have hpne : pages[i] ≠ [] := hne _ (List.getElem_mem hlt)
      rw [runEngine]
      simp only [chainServer, List.getElem?_eq_getElem hlt, Option.getD_some]
      rw [if_neg (by simpa [List.isEmpty_iff] using hpne)]
      rw [if_neg (by simp [budgetAfter])]
      rw [if_neg (by omega : ¬ (i + 1 = i))]
      rw [show budgetAfter none (pageTake none pages[i]).length = none from rfl]
      rw [ih (i + 1) (by omega) (by omega)]
      rw [hdrop, List.flatten_cons]
      have hk : pages.length + 1 - i = (pages.length + 1 - (i + 1)) + 1 := by omega
      rw [hk, List.range'_succ]
      simp [pageTake]
    · have hie : i = pages.length := by omega
      subst hie
      have hnone : pages[pages.length]? = none :=
        List.getElem?_eq_none (le_refl _)
      rw [runEngine]
      rw [if_pos (by simp [chainServer, hnone])]
      have h0 : pages.drop pages.length = [] := by simp
      rw [h0]
      have h1 : pages.length + 1 - pages.length = 1 := by omega
      rw [h1, List.range'_one]
      rfl

/-! ## Claims about the pagination engine -/

/-- Claim C1: for every search with result cap `max_items = N` run
against a server whose pages together contain at least `N` items, the
pagination engine yields exactly `N` items and then stops: the final
page's item sequence is truncated to exactly the remaining budget (the
yielded items are the first `N` of the concatenated pages, so the final
page is not discarded), and no request for a further page is issued once
the budget is reached (the request trace is exactly the
`pagesNeeded pages N` first page targets, even though every page of the
synthetic server advertises a next link). -/
theorem claim_C1_max_items_pagination (pages : List (List Nat)) (N fuel : Nat)
    (hN : 0 < N) (hne : ∀ p ∈ pages, p ≠ [])
    (htot : N ≤ (pages.map List.length).sum)
    (hfuel : pages.length ≤ fuel) :
    runEngine (chainServer pages) fuel 0 (some N)
      = ((pages.flatten).take N, List.range' 0 (pagesNeeded pages N)) ∧
    ((runEngine (chainServer pages) fuel 0 (some N)).1).length = N := by
  have h := runEngine_chain pages hne fuel 0 N hN (by simpa using htot) (by omega)
  rw [List.drop_zero] at h
  refine ⟨h, ?_⟩
  rw [h]
  simp only [List.length_take, List.length_flatten]
  omega

/-- Witness for C1: the spec's pagination-termination test: three pages
of ten items each and `max_items = 25` yield exactly the first 25 items,
with requests issued for pages 0, 1 and 2 only — no 4th-page request. -/
theorem claim_C1_witness :
    runEngine (chainServer threePagesOfTen) 10 0 (some 25)
      = (List.range' 0 25, [0, 1, 2]) ∧
    ((runEngine (chainServer threePagesOfTen) 10 0 (some 25)).1).length = 25 := by
  have h := claim_C1_max_items_pagination threePagesOfTen 25 10 (by decide)
    (by decide) (by decide) (by decide)
  exact ⟨h.1.trans (by decide), h.2⟩

/-- Claim C3: when a page's "next" link resolves to the same target as
the page just fetched, the engine stops after that one observation: the
request trace is exactly the single request for the current page (so the
same request is never re-issued), and the termination is benign — with
an unbounded budget the page's items are still yielded normally. -/
theorem claim_C3_cycle_guard {α : Type} [DecidableEq α] (server : α → Page α)
    (fuel : Nat) (t : α) (budget : Option Nat) (link : ContinuationLink α)
    (hnext : (server t).next = some link) (hcycle : link.target = t) :
    (runEngine server (fuel + 1) t budget).2 = [t] ∧
    (budget = none → (runEngine server (fuel + 1) t budget).1 = (server t).items) := by
  constructor
  · rw [runEngine]
    split
    · rfl
    · split
      · rfl
      · simp only [hnext]
        rw [if_pos hcycle]
  · rintro rfl
    rw [runEngine]
    split
    · rename_i hemp
      rw [List.isEmpty_iff] at hemp
      simp [hemp]
    · split
      · rename_i hbud
        simp [budgetAfter] at hbud
      · simp only [hnext]
        rw [if_pos hcycle]
        simp [pageTake]

/-- Witness for C3: a server whose next link always targets the current
URL is fetched exactly once; its items are yielded and iteration
stops. -/
theorem claim_C3_witness :
    (runEngine selfLoopServer (5 + 1) 0 none).2 = [0] ∧
    (runEngine selfLoopServer (5 + 1) 0 none).1 = [1, 2, 3] := by
  have h := claim_C3_cycle_guard selfLoopServer 5 0 none
    { method := .GET, target := 0, body := none } rfl rfl
  exact ⟨h.1, (h.2 rfl).trans (by decide)⟩

/-- Claim C10: a fetched page with zero items stops iteration at that
point: nothing further is yielded and no request for a further page is
issued, whatever budget remains. -/
theorem claim_C10_empty_page_stops {α : Type} [DecidableEq α] (server : α → Page α)
    (fuel : Nat) (t : α) (budget : Option Nat)
    (hempty : (server t).items = []) :
    runEngine server (fuel + 1) t budget = ([], [t]) := by
  rw [runEngine, if_pos (by simp [hempty])]

/-- Witness for C10: the empty chain server returns an empty page that
still carries a continuation link (to page 1), yet the engine yields
nothing and requests only page 0. -/
theorem claim_C10_witness :
    (chainServer [] 0).next = some { method := .GET, target := 1, body := none } ∧
    runEngine (chainServer []) (4 + 1) 0 none = ([], [0]) :=
  ⟨rfl, claim_C10_empty_page_stops (chainServer []) 4 0 none rfl⟩

/-- Counterexample to C8 as stated: the result cap of a search
constructed without an explicit `max_items` is not 100 — CHANGELOG
v0.5.0 restored the unlimited default — and against a synthetic server
holding 101 items the default-cap iteration yields 101 items, more than
the claimed cap of 100. -/
theorem claim_C8_counterexample :
    defaultSearchSpec.maxItems ≠ some 100 ∧
    100 < ((runEngine (chainServer [List.range' 0 101]) 2 0
      defaultSearchSpec.maxItems).1).length :=
  ⟨by decide, by decide⟩

/-- Claim C8 (amended): a search constructed without an explicit
`max_items` argument has an unbounded result cap (`none`), not 100:
CHANGELOG v0.4.0 changed the default to 100, but v0.5.0 "Restored the
previous behavior of Client.search() to return an unlimited number of
items by default", which stands at head.  Under the default cap no
budget truncation occurs: against a linear server of nonempty pages the
engine yields every item of every page. -/
theorem claim_C8_default_max_items (pages : List (List Nat)) (fuel : Nat)
    (hne : ∀ p ∈ pages, p ≠ []) (hfuel : pages.length + 1 ≤ fuel) :
    defaultSearchSpec.maxItems = none ∧
    runEngine (chainServer pages) fuel 0 defaultSearchSpec.maxItems
      = (pages.flatten, List.range' 0 (pages.length + 1)) := by
  refine ⟨rfl, ?_⟩
  have h := runEngine_chain_unbounded pages hne fuel 0 (by omega) (by omega)
  show runEngine (chainServer pages) fuel 0 none = _
  rw [h, List.drop_zero, Nat.sub_zero]

/-! ## Filter-translator lemmas -/

/-- String concatenation concatenates the character lists. -/
theorem toList_append (s t : String) : (s ++ t).toList = s.toList ++ t.toList := by
  cases s
  cases t
  rfl

/-- Rebuilding a string from its character list is the identity. -/
theorem mk_toList (s : String) : String.mk s.toList = s := by
  cases s
  rfl

/-- A string sequence with none of the three operator characters
contains no recognized operator token. -/
theorem splitFirstOp_eq_none (cs : List Char)
    (h : ∀ c ∈ cs, c ≠ '<' ∧ c ≠ '>' ∧ c ≠ '=') :
    splitFirstOp cs = none := by
  induction cs with
  | nil => rfl
  | cons c rest ih =>
    obtain ⟨h1, h2, h3⟩ := h c (by simp)
    rw [splitFirstOp]
    rw [if_neg (by simp [h1, h2])]
    rw [if_neg h3]
    rw [ih (fun c hc => h c (by simp [hc]))]

/-- The splitter finds the first operator occurrence: with a clean
property part on the left, splitting `p ++ op ++ r` returns exactly
`(p, op, r)`. -/
theorem splitFirstOp_append (op : CompOp) (r : List Char)
    (hr : (op = CompOp.gt ∨ op = CompOp.lt) → r.head? ≠ some '=') :
    ∀ p : List Char, (∀ c ∈ p, c ≠ '<' ∧ c ≠ '>' ∧ c ≠ '=') →
      splitFirstOp (p ++ op.token.toList ++ r) = some (p, op.token, r) := by
  intro p
  induction p with
  | nil =>
    intro _
    simp only [List.nil_append]
    cases op with
    | ge => rfl
    | le => rfl
    | eq => rfl
    | gt =>
      cases r with
      | nil => rfl
      | cons c' r' =>
        have hc : c' ≠ '=' := by
          have h := hr (Or.inl rfl)
          simp only [List.head?] at h
          intro hcc
          exact h (by rw [hcc])
        show splitFirstOp ('>' :: (c' :: r')) = _
        rw [splitFirstOp]
        rw [if_pos (by simp)]
        rw [if_neg (by simp [hc])]
        rfl
    | lt =>
      cases r with
      | nil => rfl
      | cons c' r' =>
        have hc : c' ≠ '=' := by
          have h := hr (Or.inr rfl)
          simp only [List.head?] at h
          intro hcc
          exact h (by rw [hcc])
        show splitFirstOp ('<' :: (c' :: r')) = _
        rw [splitFirstOp]
        rw [if_pos (by simp)]
        rw [if_neg (by simp [hc])]
        rfl
  | cons c p' ih =>
    intro hp
    obtain ⟨h1, h2, h3⟩ := hp c (by simp)
    simp only [List.cons_append]
    rw [splitFirstOp]
    rw [if_neg (by simp [h1, h2])]
    rw [if_neg h3]
    rw [ih (fun c hc => hp c (by simp [hc]))]

/-! ## Claims about the filter translator -/

/-- Claim C2: the shorthand translator splits on the first occurrence
of a recognized operator token among `>=`, `<=`, `>`, `<`, `=`, taking
the left side as the property name and the right side as the literal.
The literal becomes a numeric value only when the property is on the
documented allowlist; otherwise it stays a string even when it looks
numeric.  In particular `cloud<10` translates to a comparison node with
string value `10`, while `gsd<1.5` translates with the numeric value
3/2 = 1.5. -/
theorem claim_C2_shorthand_translation :
    (∀ (p r : String) (op : CompOp),
       (∀ c ∈ p.toList, c ≠ '<' ∧ c ≠ '>' ∧ c ≠ '=') →
       ((op = CompOp.gt ∨ op = CompOp.lt) → r.toList.head? ≠ some '=') →
       numericProperties.contains p = false →
       translateShorthand (p ++ op.token ++ r)
         = .ok { op := op.token, property := p, value := .str r }) ∧
    (∀ (p r : String) (op : CompOp) (q : Rat),
       (∀ c ∈ p.toList, c ≠ '<' ∧ c ≠ '>' ∧ c ≠ '=') →
       ((op = CompOp.gt ∨ op = CompOp.lt) → r.toList.head? ≠ some '=') →
       numericProperties.contains p = true →
       parseDecimal r.toList = some q →
       translateShorthand (p ++ op.token ++ r)
         = .ok { op := op.token, property := p, value := .num q }) ∧
    translateShorthand "cloud<10"
      = .ok { op := "<", property := "cloud", value := .str "10" } ∧
    translateShorthand "gsd<1.5"
      = .ok { op := "<", property := "gsd", value := .num (3 / 2) } := by
  have hsplit : ∀ (p r : String) (op : CompOp),
      (∀ c ∈ p.toList, c ≠ '<' ∧ c ≠ '>' ∧ c ≠ '=') →
      ((op = CompOp.gt ∨ op = CompOp.lt) → r.toList.head? ≠ some '=') →
      splitFirstOp (p ++ op.token ++ r).toList = some (p.toList, op.token, r.toList) := by
    intro p r op hp hr
    rw [toList_append, toList_append]
    exact splitFirstOp_append op r.toList hr p.toList hp
  have hnum : ∀ (p r : String) (op : CompOp) (q : Rat),
      (∀ c ∈ p.toList, c ≠ '<' ∧ c ≠ '>' ∧ c ≠ '=') →
      ((op = CompOp.gt ∨ op = CompOp.lt) → r.toList.head? ≠ some '=') →
      numericProperties.contains p = true →
      parseDecimal r.toList = some q →
      translateShorthand (p ++ op.token ++ r)
        = .ok { op := op.token, property := p, value := .num q } := by
    intro p r op q hp hr hcon hq
    rw [translateShorthand, hsplit p r op hp hr]
    simp only [mk_toList, hcon, if_pos, hq]
  refine ⟨?_, hnum, rfl, ?_⟩
  · intro p r op hp hr hcon
    rw [translateShorthand, hsplit p r op hp hr]
    simp only [mk_toList, hcon]
    rfl
  · have hq : parseDecimal "1.5".toList = some (3 / 2 : Rat) := by
      have h0 : parseDecimal "1.5".toList
          = some ((Nat.cast 1 : Rat) + (Nat.cast 5 : Rat) / ((10 : Rat) ^ (1 : Nat))) := rfl
      rw [h0]
      norm_num
    have h := hnum "gsd" "1.5" CompOp.lt (3 / 2) (by decide) (by decide) (by decide) hq
    rw [show ("gsd<1.5" : String) = "gsd" ++ CompOp.lt.token ++ "1.5" from rfl]
    exact h

/-- Witness for C2: the two documented examples, instantiating the
general split statement at `cloud`, `<`, `10`. -/
theorem claim_C2_witness :
    translateShorthand ("cloud" ++ CompOp.lt.token ++ "10")
      = .ok { op := CompOp.lt.token, property := "cloud", value := .str "10" } :=
  claim_C2_shorthand_translation.1 "cloud" "10" CompOp.lt
    (by decide) (by decide) (by decide)

/-- Claim C7: a malformed shorthand string containing no recognized
operator token fails at search-construction time with the
invalid-filter condition (the spec's `InvalidFilterSyntax`) identifying
the offending token, and the combined construct-then-run search returns
that error without driving the engine, so no request is ever issued. -/
theorem claim_C7_invalid_filter_fails_early (s : String)
    (hs : ∀ c ∈ s.toList, c ≠ '<' ∧ c ≠ '>' ∧ c ≠ '=') :
    translateShorthand s = .error (.invalidFilterShorthand s) ∧
    ∀ (rest : List String) {α : Type} [DecidableEq α] (server : α → Page α)
      (fuel : Nat) (start : α) (b : Option Nat),
      executeSearch (s :: rest) server fuel start b
        = .error (.invalidFilterShorthand s) := by
  have h1 : translateShorthand s = .error (.invalidFilterShorthand s) := by
    rw [translateShorthand, splitFirstOp_eq_none s.toList hs]
  refine ⟨h1, ?_⟩
  intro rest α _ server fuel start b
  rw [executeSearch]
  simp only [buildQueryFilter, exceptMapList, h1]

/-- Witness for C7: the operator-free string `cloud10` fails search
construction with the invalid-filter condition naming it, and the
search returns the error rather than a request trace. -/
theorem claim_C7_witness :
    translateShorthand "cloud10" = .error (.invalidFilterShorthand "cloud10") ∧
    executeSearch ["cloud10"] (chainServer [[1]]) 5 0 none
      = .error (.invalidFilterShorthand "cloud10") := by
  have h := claim_C7_invalid_filter_fails_early "cloud10" (by decide)
  exact ⟨h.1, h.2 [] (chainServer [[1]]) 5 0 none⟩

/-! ## Sort-normalizer lemmas -/

/-- A nonempty string has a nonempty character list. -/
theorem toList_ne_nil (s : String) (h : s ≠ "") : s.toList ≠ [] := by
  intro hl
  apply h
  calc s = String.mk s.toList := (mk_toList s).symm
  _ = String.mk [] := by rw [hl]
  _ = "" := rfl

/-- A comma-free character sequence splits into one chunk. -/
theorem splitComma_no_comma (cs : List Char) (h : ',' ∉ cs) :
    splitComma cs = [cs] := by
  induction cs with
  | nil => rfl
  | cons c rest ih =>
    have hc : c ≠ ',' := fun hc => h (by simp [hc])
    rw [splitComma, if_neg hc, ih (fun hm => h (by simp [hm]))]

/-- Splitting a comma-free chunk followed by a comma and a remainder
peels off the chunk. -/
theorem splitComma_append (t rest : List Char) (h : ',' ∉ t) :
    splitComma (t ++ ',' :: rest) = t :: splitComma rest := by
  induction t with
  | nil => simp [splitComma]
  | cons c t' ih =>
    have hc : c ≠ ',' := fun hc => h (by simp [hc])
    simp only [List.cons_append]
    rw [splitComma, if_neg hc, ih (fun hm => h (by simp [hm]))]

/-- Splitting the comma-joined rendering of comma-free tokens recovers
exactly the token list. -/
theorem splitComma_joinComma : ∀ ts : List String, ts ≠ [] →
    (∀ t ∈ ts, ',' ∉ t.toList) →
    splitComma (joinComma ts).toList = ts.map String.toList := by
  intro ts
  induction ts with
  | nil => intro h; exact absurd rfl h
  | cons t rest ih =>
    intro _ hcf
    cases rest with
    | nil =>
      rw [show joinComma [t] = t from rfl]
      exact splitComma_no_comma t.toList (hcf t (by simp))
    | cons t2 rest2 =>
      rw [show joinComma (t :: t2 :: rest2) = t ++ "," ++ joinComma (t2 :: rest2) from rfl]
      rw [toList_append, toList_append, List.append_assoc]
      show splitComma (t.toList ++ (',' :: (joinComma (t2 :: rest2)).toList)) = _
      rw [splitComma_append _ _ (hcf t (by simp))]
      rw [ih (by simp) (fun a ha => hcf a (by simp [ha]))]
      rfl

/-- Mapping under a fallible list traversal composes. -/
theorem exceptMapList_map {ε α β γ : Type} (f : β → Except ε γ) (g : α → β)
    (l : List α) :
    exceptMapList f (l.map g) = exceptMapList (fun a => f (g a)) l := by
  induction l with
  | nil => rfl
  | cons a rest ih => simp only [List.map_cons, exceptMapList, ih]

/-- A fallible list traversal respects pointwise equality. -/
theorem exceptMapList_congr {ε α β : Type} {f g : α → Except ε β} (l : List α)
    (h : ∀ a ∈ l, f a = g a) :
    exceptMapList f l = exceptMapList g l := by
  induction l with
  | nil => rfl
  | cons a rest ih =>
    simp only [exceptMapList, h a (by simp), ih (fun a ha => h a (by simp [ha]))]

/-- A record with a nonempty field and a recognized direction token
normalizes to that field with the decoded direction. -/
theorem normalizeRecord_valid (r : SortRecord) (hf : r.field ≠ "")
    (hd : r.direction = "asc" ∨ r.direction = "desc") :
    normalizeRecord r = .ok ⟨r.field, decodeDirection r.direction⟩ := by
  rcases hd with hd | hd <;> rw [normalizeRecord, if_neg hf, hd] <;> rfl

/-- Normalizing the rendered prefixed token of a valid record agrees
with normalizing the record itself. -/
theorem normalizeSortToken_renderRecord (r : SortRecord) (hf : r.field ≠ "")
    (hd : r.direction = "asc" ∨ r.direction = "desc") :
    normalizeSortToken (renderRecord r).toList = normalizeRecord r := by
  have hne := toList_ne_nil r.field hf
  rcases hd with hd | hd
  · have h1 : renderRecord r = "+" ++ r.field := by
      rw [renderRecord, hd]
      rfl
    rw [h1, toList_append]
    show normalizeSortToken ('+' :: r.field.toList) = _
    rw [normalizeSortToken, if_neg (by simp), if_neg (by simp), if_pos (by simp),
      if_neg (by simpa [List.isEmpty_iff] using hne)]
    rw [normalizeRecord_valid r hf (Or.inl hd), hd]
    simp [mk_toList, decodeDirection]
  · have h1 : renderRecord r = "-" ++ r.field := by
      rw [renderRecord, hd]
      rfl
    rw [h1, toList_append]
    show normalizeSortToken ('-' :: r.field.toList) = _
    rw [normalizeSortToken, if_neg (by simp), if_pos (by simp),
      if_neg (by simpa [List.isEmpty_iff] using hne)]
    rw [normalizeRecord_valid r hf (Or.inr hd), hd]
    simp [mk_toList, decodeDirection]

/-- A list of valid records normalizes to the ordered field/direction
sequence, preserving the given order. -/
theorem normalizeRecords_ok (recs : List SortRecord)
    (h : ∀ r ∈ recs, r.field ≠ "" ∧ (r.direction = "asc" ∨ r.direction = "desc")) :
    exceptMapList normalizeRecord recs
      = .ok (recs.map (fun r => (⟨r.field, decodeDirection r.direction⟩ : SortField))) := by
  induction recs with
  | nil => rfl
  | cons r rest ih =>
    obtain ⟨hf, hd⟩ := h r (by simp)
    rw [exceptMapList, normalizeRecord_valid r hf hd,
      ih (fun a ha => h a (by simp [ha]))]
    rfl

/-! ## Claim about the sort normalizer -/

/-- Claim C5: the three accepted sort-specification shapes — one
comma-separated string of optionally prefixed fields, a list of such
prefixed fields, and a list of explicit field/direction records — all
normalize to the identical ordered SortField sequence; field order is
preserved exactly as given and an unprefixed field defaults to
ascending.  In particular `-datetime,+id`, `["-datetime","+id"]` and
`[{datetime, desc}, {id, asc}]` all normalize to the same two-element
sequence. -/
theorem claim_C5_sort_normalization :
    (∀ ts : List String, ts ≠ [] → (∀ t ∈ ts, ',' ∉ t.toList) →
       normalizeSort (.ofString (joinComma ts)) = normalizeSort (.ofList ts)) ∧
    (∀ recs : List SortRecord,
       (∀ r ∈ recs, r.field ≠ "" ∧ (r.direction = "asc" ∨ r.direction = "desc")) →
       normalizeSort (.ofList (recs.map renderRecord)) = normalizeSort (.ofRecords recs) ∧
       normalizeSort (.ofRecords recs)
         = .ok (recs.map (fun r => (⟨r.field, decodeDirection r.direction⟩ : SortField)))) ∧
    (∀ f : String, f.toList ≠ [] → f.toList.head? ≠ some '-' →
       f.toList.head? ≠ some '+' →
       normalizeSortToken f.toList = .ok { field := f, direction := .asc }) ∧
    (normalizeSort (.ofString "-datetime,+id")
        = .ok [⟨"datetime", .desc⟩, ⟨"id", .asc⟩] ∧
     normalizeSort (.ofList ["-datetime", "+id"])
        = .ok [⟨"datetime", .desc⟩, ⟨"id", .asc⟩] ∧
     normalizeSort (.ofRecords [⟨"datetime", "desc"⟩, ⟨"id", "asc"⟩])
        = .ok [⟨"datetime", .desc⟩, ⟨"id", .asc⟩]) := by
  refine ⟨?_, ?_, ?_, rfl, rfl, rfl⟩
  · intro ts hne hcf
    rw [normalizeSort, splitComma_joinComma ts hne hcf, exceptMapList_map]
    rfl
  · intro recs h
    constructor
    · rw [normalizeSort, exceptMapList_map]
      exact exceptMapList_congr recs (fun r hr =>
        normalizeSortToken_renderRecord r (h r hr).1 (h r hr).2)
    · exact normalizeRecords_ok recs h
  · intro f h1 h2 h3
    rw [normalizeSortToken, if_neg (by simpa [List.isEmpty_iff] using h1),
      if_neg h2, if_neg h3, mk_toList]

/-- Witness for C5: the comma-joined string shape, the prefixed-list
shape and the record shape coincide on the documented example inputs,
and an unprefixed field name normalizes to an ascending sort. -/
theorem claim_C5_witness :
    (normalizeSort (.ofString (joinComma ["-datetime", "+id"]))
       = normalizeSort (.ofList ["-datetime", "+id"])) ∧
    (normalizeSort (.ofList (List.map renderRecord [⟨"datetime", "desc"⟩, ⟨"id", "asc"⟩]))
       = normalizeSort (.ofRecords [⟨"datetime", "desc"⟩, ⟨"id", "asc"⟩])) ∧
    normalizeSortToken "collection".toList = .ok ⟨"collection", .asc⟩ :=
  ⟨claim_C5_sort_normalization.1 ["-datetime", "+id"] (by decide) (by decide),
   (claim_C5_sort_normalization.2.1 [⟨"datetime", "desc"⟩, ⟨"id", "asc"⟩] (by decide)).1,
   claim_C5_sort_normalization.2.2.1 "collection" (by decide) (by decide) (by decide)⟩

/-! ## Claim about capability gating -/

/-- Claim C4: a search that requests a filter expression against a
registry lacking the filter capability, with no override added, emits
the `unsupportedCapability` warning signal for the filter capability
exactly once for the search, and the request is still attempted — the
engine is driven and issues at least its first request — rather than
the search being refused. -/
theorem claim_C4_capability_warn_and_try (cs : ConformanceSet) (sp : SearchSpec)
    {α : Type} [DecidableEq α] (server : α → Page α) (fuel : Nat) (start : α)
    (hfilter : sp.filter.isSome)
    (hun : cs.implements CONFORMANCE_FILTER = false) :
    ((searchWithGate cs sp server (fuel + 1) start).1).count
        (.unsupportedCapability CONFORMANCE_FILTER) = 1 ∧
    (searchWithGate cs sp server (fuel + 1) start).2.2 ≠ [] := by
  refine ⟨?_, runEngine_requests_ne_nil server fuel start sp.maxItems⟩
  have hrest : ∀ caps : List String, CONFORMANCE_FILTER ∉ caps →
      (caps.filterMap (fun cap => if cs.implements cap then none
         else some (WarningSignal.unsupportedCapability cap))).count
        (WarningSignal.unsupportedCapability CONFORMANCE_FILTER) = 0 := by
    intro caps hmem
    rw [List.count_eq_zero]
    intro hin
    obtain ⟨cap, hcap, heq⟩ := List.mem_filterMap.mp hin
    by_cases h : cs.implements cap
    · simp [h] at heq
    · simp only [h, if_neg, Bool.false_eq_true, if_false] at heq
      rw [Option.some_inj] at heq
      cases heq
      exact hmem hcap
  show (gateWarnings cs sp).count (.unsupportedCapability CONFORMANCE_FILTER) = 1
  rw [gateWarnings, capabilityChecks, if_pos hfilter]
  rw [List.filterMap_append, List.filterMap_append,
    List.count_append, List.count_append]
  have h1 : ([CONFORMANCE_FILTER].filterMap (fun cap => if cs.implements cap then none
      else some (WarningSignal.unsupportedCapability cap)))
      = [.unsupportedCapability CONFORMANCE_FILTER] := by
    simp [hun]
  have hq : CONFORMANCE_FILTER
      ∉ (if sp.query.isEmpty then ([] : List String) else [CONFORMANCE_QUERY]) := by
    split
    · simp
    · intro hmem
      rw [List.mem_singleton] at hmem
      exact absurd hmem (by decide)
  have hs : CONFORMANCE_FILTER
      ∉ (if sp.sortby.isSome then [CONFORMANCE_SORT] else ([] : List String)) := by
    split
    · intro hmem
      rw [List.mem_singleton] at hmem
      exact absurd hmem (by decide)
    · simp
  rw [h1, hrest _ hq, hrest _ hs]
  rfl

/-- Witness for C4: a registry advertising only the core capability and
a search with a filter expression produce exactly one
unsupported-capability warning for the filter capability, and the
engine still issues the page-0 request. -/
theorem claim_C4_witness :
    ((searchWithGate gateExampleCS gateExampleSpec (chainServer [[1]]) (0 + 1) 0).1).count
        (.unsupportedCapability CONFORMANCE_FILTER) = 1 ∧
    (searchWithGate gateExampleCS gateExampleSpec (chainServer [[1]]) (0 + 1) 0).2.2 ≠ [] :=
  claim_C4_capability_warn_and_try gateExampleCS gateExampleSpec
    (chainServer [[1]]) 0 0 (by decide) (by decide)

/-! ## Retry-transport lemmas -/

/-- The retry loop makes at most as many further attempts as it is
allowed. -/
theorem runAttempts_le (cfg : RetryConfig) (script : Nat → AttemptResult) :
    ∀ (n made : Nat), (runAttempts cfg script made n).attempts ≤ made + n := by
  intro n
  induction n with
  | zero =>
    intro made
    simp [runAttempts, TransportOutcome.attempts]
  | succ m ih =>
    intro made
    rw [runAttempts]
    by_cases h1 : isSuccess (script made) = true
    · rw [if_pos h1]
      simp only [TransportOutcome.attempts]
      omega
    · rw [if_neg h1]
      by_cases h2 : (retryable cfg (script made) && m != 0) = true
      · rw [if_pos h2]
        exact le_trans (ih (made + 1)) (by omega : made + 1 + m ≤ made + (m + 1))
      · rw [if_neg h2]
        simp only [TransportOutcome.attempts]
        omega

/-! ## Claim about the retry policy -/

/-- Claim C6: the transport retries an attempt only on
connection/name-resolution failures, timeouts, or a 5xx status code
explicitly placed on the configured forcelist; with the default (empty)
forcelist no status code is retried; 4xx responses and malformed bodies
surface immediately after a single attempt; the number of attempts never
exceeds the configured maximum; and a transport failing twice with a
timeout then succeeding produces a success with exactly 3 attempts. -/
theorem claim_C6_retry_policy :
    (∀ (cfg : RetryConfig) (r : AttemptResult), retryable cfg r = true →
       r = .connectionError ∨ r = .timeout ∨
       ∃ c, r = .status c ∧ 500 ≤ c ∧ c < 600 ∧ cfg.statusForcelist.contains c = true) ∧
    (∀ (n c : Nat), retryable { maxAttempts := n } (.status c) = false) ∧
    (∀ (cfg : RetryConfig) (script : Nat → AttemptResult) (c : Nat),
       400 ≤ c → c < 500 → script 0 = .status c → 0 < cfg.maxAttempts →
       runTransport cfg script = .failed (.status c) 1) ∧
    (∀ (cfg : RetryConfig) (script : Nat → AttemptResult),
       script 0 = .malformedBody → 0 < cfg.maxAttempts →
       runTransport cfg script = .failed .malformedBody 1) ∧
    (∀ (cfg : RetryConfig) (script : Nat → AttemptResult),
       (runTransport cfg script).attempts ≤ cfg.maxAttempts) ∧
    (∀ cfg : RetryConfig, 3 ≤ cfg.maxAttempts →
       runTransport cfg twoTimeoutsThenSuccess = .ok 7 3) := by
  refine ⟨?_, ?_, ?_, ?_, ?_, ?_⟩
  · intro cfg r h
    cases r with
    | success b => simp [retryable] at h
    | connectionError => exact Or.inl rfl
    | timeout => exact Or.inr (Or.inl rfl)
    | status c =>
      refine Or.inr (Or.inr ⟨c, rfl, ?_⟩)
      simp only [retryable, Bool.and_eq_true, decide_eq_true_eq] at h
      exact ⟨h.1.1, h.1.2, h.2⟩
    | malformedBody => simp [retryable] at h
  · intro n c
    simp [retryable]
  · intro cfg script c h4 h5 hs hm
    obtain ⟨m, hmax⟩ : ∃ m, cfg.maxAttempts = m + 1 := ⟨cfg.maxAttempts - 1, by omega⟩
    rw [runTransport, hmax, runAttempts, hs]
    rw [if_neg (by simp [isSuccess])]
    rw [if_neg ?hneg4xx]
    case hneg4xx =>
      simp only [retryable, Bool.and_eq_true, decide_eq_true_eq]
      rintro ⟨⟨⟨h5xx, _⟩, _⟩, _⟩
      omega
  · intro cfg script hs hm
    obtain ⟨m, hmax⟩ : ∃ m, cfg.maxAttempts = m + 1 := ⟨cfg.maxAttempts - 1, by omega⟩
    rw [runTransport, hmax, runAttempts, hs]
    rw [if_neg (by simp [isSuccess])]
    rw [if_neg (by simp [retryable])]
  · intro cfg script
    simpa using runAttempts_le cfg script cfg.maxAttempts 0
  · intro cfg h3
    obtain ⟨k, hk⟩ : ∃ k, cfg.maxAttempts = k + 3 := ⟨cfg.maxAttempts - 3, by omega⟩
    rw [runTransport, hk]
    simp [runAttempts, twoTimeoutsThenSuccess, retryable, isSuccess, successBody]

/-- Witness for C6: with 5 attempts allowed and the default empty
forcelist: the two-timeouts-then-success transport succeeds with exactly
3 attempts, a 503 is not retryable, and a 404 or a malformed body
surfaces after exactly one attempt. -/
theorem claim_C6_witness :
    runTransport { maxAttempts := 5 } twoTimeoutsThenSuccess = .ok 7 3 ∧
    retryable { maxAttempts := 5 } (.status 503) = false ∧
    runTransport { maxAttempts := 5 } (fun _ => .status 404) = .failed (.status 404) 1 ∧
    runTransport { maxAttempts := 5 } (fun _ => .malformedBody) = .failed .malformedBody 1 :=
  ⟨claim_C6_retry_policy.2.2.2.2.2 { maxAttempts := 5 } (by decide),
   claim_C6_retry_policy.2.1 5 503,
   claim_C6_retry_policy.2.2.1 { maxAttempts := 5 } (fun _ => .status 404) 404
     (by decide) (by decide) rfl (by decide),
   claim_C6_retry_policy.2.2.2.1 { maxAttempts := 5 } (fun _ => .malformedBody)
     rfl (by decide)⟩

/-- Witness for the amended C8: the default-cap run over one page of
101 items yields all 101 items — uncapped — and requests pages 0 and 1,
page 1 being the empty page that ends the chain. -/
theorem claim_C8_witness :
    defaultSearchSpec.maxItems = none ∧
    runEngine (chainServer [List.range' 0 101]) 2 0 defaultSearchSpec.maxItems
      = (List.range' 0 101, [0, 1]) := by
  have h := claim_C8_default_max_items [List.range' 0 101] 2 (by decide) (by decide)
  exact ⟨h.1, h.2.trans (by decide)⟩

/-! ## Claim about filter-language selection -/

/-- Claim C9: with no explicit filter-language argument the language tag
sent with the request is chosen from the filter's shape — `cql2-json`
for a structured expression tree (a dict), `cql2-text` for a raw string
— and the overall default language is `cql2-json`. -/
theorem claim_C9_filter_lang :
    (∀ e : FilterExpr, filterParams none (some (.structured e))
       = [("filter-lang", .str "cql2-json"), ("filter", .json e)]) ∧
    (∀ s : String, filterParams none (some (.text s))
       = [("filter-lang", .str "cql2-text"), ("filter", .str s)]) ∧
    defaultFilterLang = "cql2-json" ∧
    (∀ e : FilterExpr, resolveFilterLang none (.structured e) = defaultFilterLang) :=
  ⟨fun _ => rfl, fun _ => rfl, rfl, fun _ => rfl⟩

/-- Witness for C9: a raw-string filter is tagged `cql2-text`. -/
theorem claim_C9_witness :
    filterParams none (some (.text "gsd <= 1"))
      = [("filter-lang", .str "cql2-text"), ("filter", .str "gsd <= 1")] :=
  claim_C9_filter_lang.2.1 "gsd <= 1"

end PystacClient
